import Mathlib

/-!
Shallow embedding of src/build_pulse.py (Daily Pulse Builder for casting
platform data) and proofs about its field classifiers and its
bucket-and-aggregate stage.

Modelling conventions:
- Python `None`/`NaN` text fields are `Option String`; a missing value is
  `none`.
- Python floats are modelled by exact rationals; `round` (which Python
  performs half-to-even) is modelled by `rhe`, round half to even.
- Python `in` on strings is substring containment, modelled by
  `containsSub` on `List Char`; `str.lower` is modelled by mapping
  `Char.toLower` over the characters (ASCII case folding).
- `pd.to_datetime(..., errors="coerce")` and the TextBlob polarity
  capability are external collaborators: they are passed in as function
  parameters `parseDate : String → Option Nat` (dates are encoded
  order-isomorphically as naturals, unparseable dates give `none`) and
  `pol : String → Option ℚ` (`none` models an exception raised by the
  capability).
- `df.groupby` with key columns (date_utc, region_code, proj_type_code)
  drops rows whose date is missing (pandas dropna on group keys), yields
  each distinct key once, and preserves input order inside each group;
  this is `sortedKeys` / `groupOf` below.
- `pd.DataFrame([])` (all groups suppressed) has no columns, so the
  subsequent `pulse.sort_values([...])` raises `KeyError`; `process`
  returns `none` in exactly that case.
-/

/-- True when the first list is a leading segment of the second. -/
def isPrefOf : List Char → List Char → Bool
  | [], _ => true
  | _ :: _, [] => false
  | a :: as, b :: bs => a == b && isPrefOf as bs

/-- Python `needle in hay` on strings: substring containment. -/
def containsSub : List Char → List Char → Bool
  | n, [] => isPrefOf n []
  | n, c :: cs => isPrefOf n (c :: cs) || containsSub n cs

/-- Python `str(x).lower()` applied before keyword matching (ASCII). -/
def lowerStr (s : String) : List Char :=
  s.toList.map Char.toLower

/-- One keyword set matches when some keyword is a substring of the text. -/
def kwMatch (s : String) (kws : List String) : Bool :=
  kws.any (fun k => containsSub k.toList (lowerStr s))

def naKeywords : List String :=
  ["us", "united states", "canada", "mexico", "los angeles", "atlanta",
   "chicago", "toronto", "vancouver"]

def euKeywords : List String :=
  ["uk", "united kingdom", "germany", "france", "italy", "spain",
   "netherlands", "london", "paris", "berlin"]

def apKeywords : List String :=
  ["india", "china", "japan", "korea", "australia", "singapore",
   "hong kong", "new zealand", "thailand"]

def laKeywords : List String :=
  ["brazil", "argentina", "chile", "colombia", "peru", "venezuela",
   "mexico city"]

/-- REGION_MAPPING from the source, in Python dict insertion order. -/
def REGION_MAPPING : List (String × List String) :=
  [("NA", naKeywords), ("EU", euKeywords), ("AP", apKeywords),
   ("LA", laKeywords)]

/-- PROJECT_TYPE_MAPPING from the source ('V' has no keywords). -/
def PROJECT_TYPE_MAPPING : List (String × List String) :=
  [("F", ["film", "movie", "feature"]),
   ("T", ["tv", "series", "streaming", "show", "episode"]),
   ("C", ["commercial", "advertisement", "ad"]),
   ("V", [])]

/-- map_region from the source: first category whose keyword set matches
the lower-cased location; default and missing value give NA. -/
def map_region (location : Option String) : String :=
  match location with
  | none => "NA"
  | some s =>
    match REGION_MAPPING.find? (fun ck => kwMatch s ck.2) with
    | some ck => ck.1
    | none => "NA"

/-- map_project_type from the source; default and missing value give V. -/
def map_project_type (project_type : Option String) : String :=
  match project_type with
  | none => "V"
  | some s =>
    match PROJECT_TYPE_MAPPING.find? (fun ck => kwMatch s ck.2) with
    | some ck => ck.1
    | none => "V"

/-- Value of a run of decimal digits. -/
def digitsVal (ds : List Char) : Nat :=
  ds.foldl (fun a c => a * 10 + (c.toNat - 48)) 0

/-- Value of the numeric token matched by the regex: integer digits and
optional fractional digits. -/
def tokenVal (ds1 ds2 : List Char) : ℚ :=
  (digitsVal ds1 : ℚ) + (digitsVal ds2 : ℚ) / (10 : ℚ) ^ ds2.length

/-- Leftmost match of the Python regex `\d+\.?\d*`, parsed as a number. -/
def scanRate : List Char → Option ℚ
  | [] => none
  | c :: cs =>
    if c.isDigit then
      match (c :: cs).dropWhile Char.isDigit with
      | '.' :: rest =>
        some (tokenVal ((c :: cs).takeWhile Char.isDigit)
          (rest.takeWhile Char.isDigit))
      | _ => some (tokenVal ((c :: cs).takeWhile Char.isDigit) [])
    else scanRate cs

/-- extract_rate from the source: first numeric token of the rate text,
or missing. -/
def extract_rate (text : Option String) : Option ℚ :=
  match text with
  | none => none
  | some s => scanRate s.toList

/-- is_lead from the source. -/
def is_lead (role_type : Option String) : Bool :=
  match role_type with
  | none => false
  | some s =>
    ["lead", "principal", "main", "starring"].any
      (fun k => containsSub k.toList (lowerStr s))

def unionKeywords : List String :=
  ["sag", "aftra", "equity", "union"]

/-- is_union from the source: no "non-union" substring and at least one
union keyword. -/
def is_union (union_status : Option String) : Bool :=
  match union_status with
  | none => false
  | some s =>
    !containsSub ("non-union".toList) (lowerStr s)
      && unionKeywords.any (fun k => containsSub k.toList (lowerStr s))

/-- Round half to even, the rule of Python round on exact values. -/
def rhe (q : ℚ) : ℤ :=
  if q - ⌊q⌋ < 1 / 2 then ⌊q⌋
  else if 1 / 2 < q - ⌊q⌋ then ⌊q⌋ + 1
  else if ⌊q⌋ % 2 = 0 then ⌊q⌋ else ⌊q⌋ + 1

/-- Python round(x, 1). -/
def round1 (q : ℚ) : ℚ :=
  (rhe (q * 10) : ℚ) / 10

/-- Python round(x, 2). -/
def round2 (q : ℚ) : ℚ :=
  (rhe (q * 100) : ℚ) / 100

/-- calc_sentiment from the source: missing text gives 0.0 before the
polarity capability is consulted; a capability failure (`none`) is caught
and replaced by 0.0; otherwise round(polarity * 20) / 20. -/
def calc_sentiment (pol : String → Option ℚ) (text : Option String) : ℚ :=
  match text with
  | none => 0
  | some s =>
    match pol s with
    | none => 0
    | some p => (rhe (p * 20) : ℚ) / 20

def aiKeywords : List String :=
  ["ai", "robot", "android", "artificial intelligence", "cyborg",
   "machine learning"]

/-- has_ai_keywords from the source. -/
def has_ai_keywords (text : Option String) : Bool :=
  match text with
  | none => false
  | some s => aiKeywords.any (fun k => containsSub k.toList (lowerStr s))

/-- clamp from the source: max(min_val, min(max_val, value)). -/
def clamp (value lo hi : ℚ) : ℚ :=
  max lo (min hi value)

/-- One ingested casting listing; missing CSV cells are none. -/
structure RawRecord where
  posted_date : Option String
  work_location : Option String
  project_type : Option String
  role_type : Option String
  union : Option String
  rate : Option String
  role_description : Option String
deriving DecidableEq

/-- One row of the dataframe after the derivation columns of `process`
have been added (the fields the aggregation stage reads). -/
structure DerivedRecord where
  date_utc : Option Nat
  region_code : String
  proj_type_code : String
  is_lead : Bool
  is_union : Bool
  rate_val : Option ℚ
  sentiment : ℚ
  has_ai : Bool
deriving DecidableEq

/-- One output bucket row. -/
structure PulseRow where
  date_utc : Nat
  region_code : String
  proj_type_code : String
  role_count_day : Nat
  lead_share_pct_day : ℚ
  union_share_pct_day : ℚ
  median_rate_day_usd : Option ℤ
  sentiment_avg_day : ℚ
  theme_ai_share_pct_day : ℚ
deriving DecidableEq

/-- The derivation columns added by `process`, one derived row per raw
row. -/
def derive (parseDate : String → Option Nat) (pol : String → Option ℚ)
    (r : RawRecord) : DerivedRecord :=
  { date_utc := r.posted_date.bind parseDate
    region_code := map_region r.work_location
    proj_type_code := map_project_type r.project_type
    is_lead := is_lead r.role_type
    is_union := is_union r.union
    rate_val := extract_rate r.rate
    sentiment := calc_sentiment pol r.role_description
    has_ai := has_ai_keywords r.role_description }

/-- Composite grouping key (date_utc, region_code, proj_type_code). -/
abbrev Key := Nat × String × String

/-- Grouping key of a derived record; none when the date is missing, in
which case pandas groupby drops the row. -/
def keyOf (r : DerivedRecord) : Option Key :=
  r.date_utc.map (fun d => (d, r.region_code, r.proj_type_code))

/-- The group of a key: the rows carrying that key, in input order. -/
def groupOf (rs : List DerivedRecord) (k : Key) : List DerivedRecord :=
  rs.filter (fun r => decide (keyOf r = some k))

/-- Lexicographic comparison of two characters lists by code point. -/
def charListLe : List Char → List Char → Bool
  | [], _ => true
  | _ :: _, [] => false
  | a :: as, b :: bs =>
    if a < b then true else if b < a then false else charListLe as bs

/-- Ascending tuple comparison used by pandas for the group keys. -/
def keyLe (x y : Key) : Bool :=
  if x.1 < y.1 then true
  else if y.1 < x.1 then false
  else if x.2.1 = y.2.1 then charListLe x.2.2.toList y.2.2.toList
  else charListLe x.2.1.toList y.2.1.toList

/-- The distinct group keys in the ascending order groupby yields them. -/
def sortedKeys (rs : List DerivedRecord) : List Key :=
  ((rs.filterMap keyOf).dedup).insertionSort (fun a b => keyLe a b = true)

/-- Median of a list of rationals as pandas computes it: sort, take the
middle element, or the mean of the two middle elements. -/
def medianQ (l : List ℚ) : ℚ :=
  let s := l.insertionSort (fun a b : ℚ => a ≤ b)
  if s.length % 2 = 1 then s.getD (s.length / 2) 0
  else (s.getD (s.length / 2 - 1) 0 + s.getD (s.length / 2) 0) / 2

/-- The statistics of one surviving group, as the loop body of
bucket_and_aggregate computes them. -/
def mkRow (k : Key) (g : List DerivedRecord) : PulseRow :=
  { date_utc := k.1
    region_code := k.2.1
    proj_type_code := k.2.2
    role_count_day := g.length
    lead_share_pct_day :=
      round1 (clamp ((g.countP (fun r => r.is_lead) : ℚ) / (g.length : ℚ)) 0 1)
    union_share_pct_day :=
      round1 (clamp ((g.countP (fun r => r.is_union) : ℚ) / (g.length : ℚ)) 0 1)
    median_rate_day_usd :=
      if g.filterMap (fun r => r.rate_val) = [] then none
      else some (rhe (medianQ (g.filterMap (fun r => r.rate_val)) / 250) * 250)
    sentiment_avg_day :=
      round2 (clamp (((g.map (fun r => r.sentiment)).sum) / (g.length : ℚ)) (-1) 1)
    theme_ai_share_pct_day :=
      round1 (clamp ((g.countP (fun r => r.has_ai) : ℚ) / (g.length : ℚ)) 0 1) }

/-- Loop body of bucket_and_aggregate: groups of fewer than 5 records
are skipped (continue), the others produce a PulseRow. -/
def bucketStep (rs : List DerivedRecord) (k : Key) : Option PulseRow :=
  if (groupOf rs k).length < 5 then none
  else some (mkRow k (groupOf rs k))

/-- bucket_and_aggregate from the source. -/
def bucket_and_aggregate (rs : List DerivedRecord) : List PulseRow :=
  (sortedKeys rs).filterMap (bucketStep rs)

/-- Key of an output row. -/
def rowKey (row : PulseRow) : Key :=
  (row.date_utc, row.region_code, row.proj_type_code)

/-- process from the source, up to the CSV write. When every group is
suppressed, bucket_and_aggregate yields pd.DataFrame([]), which has no
columns, and pulse.sort_values(["date_utc", "region_code",
"proj_type_code"]) raises KeyError; that abort is modelled as none. -/
def process (parseDate : String → Option Nat) (pol : String → Option ℚ)
    (rows : List RawRecord) : Option (List PulseRow) :=
  let pulse := bucket_and_aggregate (rows.map (derive parseDate pol))
  if pulse.isEmpty then none
  else some (pulse.insertionSort (fun a b => keyLe (rowKey a) (rowKey b) = true))

/-- A derived record used to exercise the theorems on concrete data. -/
def dEx : DerivedRecord :=
  { date_utc := some 1
    region_code := "NA"
    proj_type_code := "F"
    is_lead := true
    is_union := true
    rate_val := some 1200
    sentiment := 0
    has_ai := true }

/-- Five records in a single bucket. -/
def rsEx : List DerivedRecord :=
  List.replicate 5 dEx

def kEx : Key := (1, "NA", "F")

/-- The bucket row produced for kEx from rsEx. -/
def rowEx : PulseRow :=
  mkRow kEx (groupOf rsEx kEx)

/-- A derived record with an unparseable date. -/
def dNoDate : DerivedRecord :=
  { dEx with date_utc := none }

/-- A date parser that accepts everything, for concrete runs. -/
def pdEx : String → Option Nat := fun _ => some 1

/-- A polarity capability that always answers 0, for concrete runs. -/
def polEx : String → Option ℚ := fun _ => some 0

/-- A raw record whose group stays below the suppression floor when it
appears fewer than 5 times. -/
def rawEx : RawRecord :=
  { posted_date := some "2024-01-01"
    work_location := some "Los Angeles"
    project_type := some "Feature Film"
    role_type := some "Lead"
    union := some "SAG"
    rate := some "1200"
    role_description := some "Robot lead role" }

/-- The non-missing rates of the group of a key. -/
def ratesOf (rs : List DerivedRecord) (k : Key) : List ℚ :=
  (groupOf rs k).filterMap (fun r => r.rate_val)

theorem isPrefOf_iff (n h : List Char) :
    isPrefOf n h = true ↔ ∃ t, h = n ++ t := by
  induction n generalizing h with
  | nil =>
    simp [isPrefOf]
  | cons a as ih =>
    cases h with
    | nil => simp [isPrefOf]
    | cons b bs =>
      simp only [isPrefOf, Bool.and_eq_true, beq_iff_eq, ih, List.cons_append,
        List.cons.injEq]
      constructor
      · rintro ⟨rfl, t, rfl⟩
        exact ⟨t, rfl, rfl⟩
      · rintro ⟨t, rfl, rfl⟩
        exact ⟨rfl, t, rfl⟩

theorem containsSub_iff (n h : List Char) :
    containsSub n h = true ↔ ∃ p t, h = p ++ n ++ t := by
  induction h with
  | nil =>
    simp only [containsSub, isPrefOf_iff]
    constructor
    · rintro ⟨t, ht⟩
      exact ⟨[], t, by simpa using ht⟩
    · rintro ⟨p, t, ht⟩
      have h3 : p = [] ∧ n = [] ∧ t = [] := by
        simpa [List.append_assoc] using ht.symm
      rcases h3 with ⟨rfl, rfl, rfl⟩
      exact ⟨[], by simp⟩
  | cons c cs ih =>
    simp only [containsSub, Bool.or_eq_true, isPrefOf_iff, ih]
    constructor
    · rintro (⟨t, ht⟩ | ⟨p, t, rfl⟩)
      · exact ⟨[], t, by simpa using ht⟩
      · exact ⟨c :: p, t, by simp⟩
    · rintro ⟨p, t, ht⟩
      cases p with
      | nil => exact Or.inl ⟨t, by simpa using ht⟩
      | cons x xs =>
        rcases List.cons_eq_cons.mp (by simpa [List.append_assoc] using ht)
          with ⟨rfl, h2⟩
        exact Or.inr ⟨xs, t, by simpa [List.append_assoc] using h2⟩

theorem containsSub_trans {a b c : List Char} (h1 : containsSub a b = true)
    (h2 : containsSub b c = true) : containsSub a c = true := by
  rcases (containsSub_iff a b).mp h1 with ⟨p1, t1, rfl⟩
  rcases (containsSub_iff _ c).mp h2 with ⟨p2, t2, rfl⟩
  exact (containsSub_iff a _).mpr
    ⟨p2 ++ p1, t1 ++ t2, by simp [List.append_assoc]⟩

theorem containsSub_map (f : Char → Char) {n h : List Char}
    (hs : containsSub n h = true) :
    containsSub (n.map f) (h.map f) = true := by
  rcases (containsSub_iff n h).mp hs with ⟨p, t, rfl⟩
  exact (containsSub_iff _ _).mpr ⟨p.map f, t.map f, by simp⟩

theorem rhe_ge (q : ℚ) (n : ℤ) (h : (n : ℚ) ≤ q) : n ≤ rhe q := by
  have hf : n ≤ ⌊q⌋ := Int.le_floor.mpr h
  unfold rhe
  split_ifs <;> omega

theorem rhe_le (q : ℚ) (n : ℤ) (h : q ≤ (n : ℚ)) : rhe q ≤ n := by
  have hf : ⌊q⌋ ≤ n := by
    have h2 := Int.floor_mono h
    simpa using h2
  have hfl : (⌊q⌋ : ℚ) ≤ q := Int.floor_le q
  unfold rhe
  split_ifs with h1 h2 h3
  · exact hf
  all_goals
    have hlt : ⌊q⌋ < n := by
      rcases lt_or_eq_of_le hf with hl | he
      · exact hl
      · exfalso
        apply h1
        rw [he]
        have : q - (n : ℚ) ≤ 0 := by linarith
        linarith
  all_goals omega

theorem clamp_le_hi (v lo hi : ℚ) (h : lo ≤ hi) : clamp v lo hi ≤ hi := by
  unfold clamp
  exact max_le h (min_le_left _ _)

theorem clamp_ge_lo (v lo hi : ℚ) : lo ≤ clamp v lo hi :=
  le_max_left _ _

theorem round1_nonneg (q : ℚ) (h0 : 0 ≤ q) : 0 ≤ round1 q := by
  have h2 : ((0 : ℤ) : ℚ) ≤ q * 10 := by push_cast; linarith
  have g2 := rhe_ge (q * 10) 0 h2
  have : (0 : ℚ) ≤ (rhe (q * 10) : ℚ) := by exact_mod_cast g2
  unfold round1
  exact div_nonneg this (by norm_num)

theorem round1_le_one (q : ℚ) (h1 : q ≤ 1) : round1 q ≤ 1 := by
  have h3 : q * 10 ≤ ((10 : ℤ) : ℚ) := by push_cast; linarith
  have g3 := rhe_le (q * 10) 10 h3
  have hc : ((rhe (q * 10)) : ℚ) ≤ 10 := by exact_mod_cast g3
  unfold round1
  rw [div_le_one (by norm_num : (0 : ℚ) < 10)]
  exact hc

theorem find?_first {α : Type} (l : List α) (p : α → Bool) (i : Nat)
    (h : i < l.length) (hp : p (l.get ⟨i, h⟩) = true)
    (hj : ∀ j (hji : j < l.length), j < i → p (l.get ⟨j, hji⟩) = false) :
    l.find? p = some (l.get ⟨i, h⟩) := by
  induction l generalizing i with
  | nil => exact absurd h (Nat.not_lt_zero i)
  | cons a t ih =>
    cases i with
    | zero =>
      exact List.find?_cons_of_pos t hp
    | succ m =>
      have ha : p a = false := hj 0 (Nat.succ_pos _) (Nat.succ_pos _)
      rw [List.find?_cons_of_neg t (by simp [ha])]
      have hm : m < t.length := Nat.lt_of_succ_lt_succ h
      have hgets : (a :: t).get ⟨m + 1, h⟩ = t.get ⟨m, hm⟩ := rfl
      rw [hgets] at hp ⊢
      exact ih m hm hp (fun j hji hjm =>
        hj (j + 1) (Nat.succ_lt_succ hji) (Nat.succ_lt_succ hjm))

theorem map_region_eq_na (s : String) (k : String) (hk : k ∈ naKeywords)
    (hsub : containsSub k.toList (lowerStr s) = true) :
    map_region (some s) = "NA" := by
  have hm : kwMatch s naKeywords = true :=
    List.any_eq_true.mpr ⟨k, hk, hsub⟩
  have hfind : REGION_MAPPING.find? (fun ck => kwMatch s ck.2)
      = some ("NA", naKeywords) := by
    unfold REGION_MAPPING
    exact List.find?_cons_of_pos _ (by simpa using hm)
  simp [map_region, hfind]

theorem mem_bucket {rs : List DerivedRecord} {row : PulseRow}
    (h : row ∈ bucket_and_aggregate rs) :
    ∃ k : Key, 5 ≤ (groupOf rs k).length ∧ row = mkRow k (groupOf rs k) := by
  unfold bucket_and_aggregate at h
  rcases List.mem_filterMap.mp h with ⟨k, _, hstep⟩
  unfold bucketStep at hstep
  by_cases hlen : (groupOf rs k).length < 5
  · rw [if_pos hlen] at hstep
    exact absurd hstep (by simp)
  · rw [if_neg hlen] at hstep
    exact ⟨k, by omega, (Option.some.inj hstep).symm⟩

theorem rowKey_mkRow (k : Key) (g : List DerivedRecord) :
    rowKey (mkRow k g) = k := by
  obtain ⟨d, r, p⟩ := k
  rfl

/-- C1: no PulseRow is emitted for a bucket with fewer than 5 contributing
records: every output row has role_count_day at least 5 and equal to its
group's size, and a key whose group has fewer than 5 records never appears
in the output of bucket_and_aggregate. -/
theorem c1_suppression_floor (rs : List DerivedRecord) :
    (∀ row ∈ bucket_and_aggregate rs,
      5 ≤ row.role_count_day
        ∧ row.role_count_day = (groupOf rs (rowKey row)).length)
    ∧ ∀ k : Key, (groupOf rs k).length < 5 →
        ∀ row ∈ bucket_and_aggregate rs, rowKey row ≠ k := by
  constructor
  · intro row hrow
    rcases mem_bucket hrow with ⟨k, hlen, rfl⟩
    rw [rowKey_mkRow]
    exact ⟨hlen, rfl⟩
  · intro k hk row hrow hkey
    rcases mem_bucket hrow with ⟨k2, hlen, rfl⟩
    rw [rowKey_mkRow] at hkey
    subst hkey
    omega

theorem c1_witness :
    5 ≤ rowEx.role_count_day
      ∧ rowEx.role_count_day = (groupOf rsEx (rowKey rowEx)).length := by
  have hmem : rowEx ∈ bucket_and_aggregate rsEx := by
    rw [show bucket_and_aggregate rsEx = [rowEx] from rfl]
    exact List.mem_cons_self _ _
  exact (c1_suppression_floor rsEx).1 rowEx hmem

/-- C3: a derived record with a missing or unparseable posted date has no
grouping key, belongs to no group of any key, and is silently dropped
(one derived record still exists per raw record); a record belongs to the
group of key k exactly when it occurs in the data and carries key k, so
all records with the same parseable key are grouped together. -/
theorem c3_unparseable_dates (parseDate : String → Option Nat)
    (pol : String → Option ℚ) (rows : List RawRecord) :
    (rows.map (derive parseDate pol)).length = rows.length
    ∧ (∀ r : RawRecord, r.posted_date.bind parseDate = none →
        (derive parseDate pol r).date_utc = none)
    ∧ (∀ (rs : List DerivedRecord) (r : DerivedRecord),
        r.date_utc = none → ∀ k : Key, r ∉ groupOf rs k)
    ∧ ∀ (rs : List DerivedRecord) (k : Key) (r : DerivedRecord),
        r ∈ groupOf rs k ↔ r ∈ rs ∧ keyOf r = some k := by
  refine ⟨List.length_map _ _, fun r hr => hr, ?_, ?_⟩
  · intro rs r hr k hmem
    have h2 := (List.mem_filter.mp hmem).2
    have h3 : keyOf r = some k := of_decide_eq_true h2
    rw [keyOf, hr] at h3
    exact absurd h3 (by simp)
  · intro rs k r
    constructor
    · intro hmem
      rcases List.mem_filter.mp hmem with ⟨h1, h2⟩
      exact ⟨h1, of_decide_eq_true h2⟩
    · intro hmem
      exact List.mem_filter.mpr ⟨hmem.1, decide_eq_true hmem.2⟩

theorem c3_witness : dNoDate ∉ groupOf (List.replicate 3 dNoDate) kEx :=
  (c3_unparseable_dates pdEx polEx []).2.2.1
    (List.replicate 3 dNoDate) dNoDate rfl kEx

/-- C6: the median rate of an output row is absent exactly when its group
has no non-missing rate_val; when present it equals the group median
divided by 250, rounded half to even, times 250, hence an exact integer
multiple of 250. -/
theorem c6_median_multiple (rs : List DerivedRecord) (row : PulseRow)
    (h : row ∈ bucket_and_aggregate rs) :
    (row.median_rate_day_usd = none ↔ ratesOf rs (rowKey row) = [])
    ∧ (ratesOf rs (rowKey row) ≠ [] →
        row.median_rate_day_usd
          = some (rhe (medianQ (ratesOf rs (rowKey row)) / 250) * 250))
    ∧ ∀ m : ℤ, row.median_rate_day_usd = some m → (250 : ℤ) ∣ m := by
  rcases mem_bucket h with ⟨k, _, rfl⟩
  rw [rowKey_mkRow]
  have hmed : (mkRow k (groupOf rs k)).median_rate_day_usd
      = if ratesOf rs k = [] then none
        else some (rhe (medianQ (ratesOf rs k) / 250) * 250) := rfl
  rw [hmed]
  by_cases he : ratesOf rs k = []
  · rw [if_pos he]
    exact ⟨by simp [he], fun hne => absurd he hne, by simp⟩
  · rw [if_neg he]
    refine ⟨by simp [he], fun _ => rfl, ?_⟩
    intro m hm
    rw [Option.some.injEq] at hm
    exact ⟨rhe (medianQ (ratesOf rs k) / 250), by omega⟩

theorem c6_witness :
    rowEx.median_rate_day_usd
      = some (rhe (medianQ (ratesOf rsEx (rowKey rowEx)) / 250) * 250) := by
  have hmem : rowEx ∈ bucket_and_aggregate rsEx := by
    rw [show bucket_and_aggregate rsEx = [rowEx] from rfl]
    exact List.mem_cons_self _ _
  exact (c6_median_multiple rsEx rowEx hmem).2.1 (by decide)

/-- C7: each percentage field of an output row is the corresponding flag
count over the group size, clamped to [0, 1] and then rounded to one
decimal, and therefore lies between 0 and 1. -/
theorem c7_share_bounds (rs : List DerivedRecord) (row : PulseRow)
    (h : row ∈ bucket_and_aggregate rs) :
    (row.lead_share_pct_day
        = round1 (clamp
            (((groupOf rs (rowKey row)).countP (fun r => r.is_lead) : ℚ)
              / ((groupOf rs (rowKey row)).length : ℚ)) 0 1)
      ∧ 0 ≤ row.lead_share_pct_day ∧ row.lead_share_pct_day ≤ 1)
    ∧ (row.union_share_pct_day
        = round1 (clamp
            (((groupOf rs (rowKey row)).countP (fun r => r.is_union) : ℚ)
              / ((groupOf rs (rowKey row)).length : ℚ)) 0 1)
      ∧ 0 ≤ row.union_share_pct_day ∧ row.union_share_pct_day ≤ 1)
    ∧ row.theme_ai_share_pct_day
        = round1 (clamp
            (((groupOf rs (rowKey row)).countP (fun r => r.has_ai) : ℚ)
              / ((groupOf rs (rowKey row)).length : ℚ)) 0 1)
      ∧ 0 ≤ row.theme_ai_share_pct_day
      ∧ row.theme_ai_share_pct_day ≤ 1 := by
  rcases mem_bucket h with ⟨k, _, rfl⟩
  rw [rowKey_mkRow]
  refine ⟨⟨rfl, ?_, ?_⟩, ⟨rfl, ?_, ?_⟩, rfl, ?_, ?_⟩ <;>
    first
      | exact round1_nonneg _ (clamp_ge_lo _ _ _)
      | exact round1_le_one _ (clamp_le_hi _ _ _ (by norm_num))

theorem c7_witness :
    0 ≤ rowEx.lead_share_pct_day ∧ rowEx.lead_share_pct_day ≤ 1 := by
  have hmem : rowEx ∈ bucket_and_aggregate rsEx := by
    rw [show bucket_and_aggregate rsEx = [rowEx] from rfl]
    exact List.mem_cons_self _ _
  have h := (c7_share_bounds rsEx rowEx hmem).1
  exact ⟨h.2.1, h.2.2⟩

/-- C4: the region mapper lower-cases the location text and returns the
first category of the fixed order NA, EU, AP, LA whose keyword set has a
substring match in it; earlier categories win ties, and a missing input
or a text no keyword matches gives NA. -/
theorem c4_region_first_match :
    REGION_MAPPING.map Prod.fst = ["NA", "EU", "AP", "LA"]
    ∧ map_region none = "NA"
    ∧ (∀ s : String,
        (∀ ck ∈ REGION_MAPPING, kwMatch s ck.2 = false) →
        map_region (some s) = "NA")
    ∧ ∀ (s : String) (i : Nat) (hi : i < REGION_MAPPING.length),
        kwMatch s (REGION_MAPPING.get ⟨i, hi⟩).2 = true →
        (∀ (j : Nat) (hj : j < REGION_MAPPING.length), j < i →
          kwMatch s (REGION_MAPPING.get ⟨j, hj⟩).2 = false) →
        map_region (some s) = (REGION_MAPPING.get ⟨i, hi⟩).1 := by
  refine ⟨rfl, rfl, ?_, ?_⟩
  · intro s hall
    have hfind : REGION_MAPPING.find? (fun ck => kwMatch s ck.2) = none :=
      List.find?_eq_none.mpr (fun x hx => by simp [hall x hx])
    simp [map_region, hfind]
  · intro s i hi hp hj
    have hfind := find?_first REGION_MAPPING (fun ck => kwMatch s ck.2) i hi hp
      (fun j hji hjlt => hj j hji hjlt)
    simp [map_region, hfind]

theorem c4_witness : map_region (some "London") = "EU" := by
  have h := c4_region_first_match.2.2.2 "London" 1 (by decide) (by decide)
    (fun j hj hlt => by
      have hj0 : j = 0 := by omega
      subst hj0
      show kwMatch "London" naKeywords = false
      decide)
  exact h

/-- C5: the union detector answers true exactly when the lower-cased text
contains one of the keywords sag, aftra, equity, union and does not
contain the literal substring non-union; a missing input gives false. -/
theorem c5_union_detector :
    is_union none = false
    ∧ ∀ s : String, is_union (some s) = true ↔
        ((∃ k ∈ unionKeywords, containsSub k.toList (lowerStr s) = true)
          ∧ containsSub ("non-union".toList) (lowerStr s) = false) := by
  refine ⟨rfl, fun s => ?_⟩
  simp only [is_union, Bool.and_eq_true, Bool.not_eq_true', List.any_eq_true]
  tauto

theorem c5_witness : is_union (some "SAG-AFTRA") = true :=
  (c5_union_detector.2 "SAG-AFTRA").mpr
    ⟨⟨"sag", by decide, by decide⟩, by decide⟩

/-- C8: the sentiment scorer answers 0 on a missing input for every
polarity capability, catches a capability failure and answers 0, and,
whenever the capability answers a polarity inside [-1, 1], produces a
value inside [-1, 1] that is an integer multiple of 1/20. -/
theorem c8_sentiment (pol : String → Option ℚ) :
    calc_sentiment pol none = 0
    ∧ (∀ t : String, pol t = none → calc_sentiment pol (some t) = 0)
    ∧ ∀ (t : String) (p : ℚ), pol t = some p → -1 ≤ p → p ≤ 1 →
        -1 ≤ calc_sentiment pol (some t)
        ∧ calc_sentiment pol (some t) ≤ 1
        ∧ ∃ n : ℤ, calc_sentiment pol (some t) = (n : ℚ) / 20 := by
  refine ⟨rfl, fun t ht => by simp [calc_sentiment, ht], ?_⟩
  intro t p hp h1 h2
  have hcalc : calc_sentiment pol (some t) = (rhe (p * 20) : ℚ) / 20 := by
    simp [calc_sentiment, hp]
  have hlo : ((-20 : ℤ) : ℚ) ≤ p * 20 := by push_cast; linarith
  have hhi : p * 20 ≤ ((20 : ℤ) : ℚ) := by push_cast; linarith
  have q1 : (-20 : ℚ) ≤ (rhe (p * 20) : ℚ) := by
    exact_mod_cast rhe_ge (p * 20) (-20) hlo
  have q2 : ((rhe (p * 20)) : ℚ) ≤ 20 := by
    exact_mod_cast rhe_le (p * 20) 20 hhi
  rw [hcalc]
  exact ⟨by linarith, by linarith, ⟨rhe (p * 20), rfl⟩⟩

/-- A polarity capability answering 7/10 everywhere, for the concrete
sentiment run. -/
def polW : String → Option ℚ := fun _ => some (7 / 10)

theorem c8_witness :
    -1 ≤ calc_sentiment polW (some "x")
      ∧ calc_sentiment polW (some "x") ≤ 1 := by
  have h := (c8_sentiment polW).2.2 "x" (7 / 10) rfl (by norm_num)
    (by norm_num)
  exact ⟨h.1, h.2.1⟩

/-- C9: a location text containing the substring australia maps to NA,
never AP, because the NA keyword us occurs inside australia and NA is
tried first; a location text containing mexico city maps to NA, never LA,
because the NA keyword mexico occurs inside it. -/
theorem c9_region_shadowing (s : String) :
    (containsSub ("australia".toList) s.toList = true →
      map_region (some s) = "NA")
    ∧ (containsSub ("mexico city".toList) s.toList = true →
      map_region (some s) = "NA") := by
  constructor
  · intro h
    have hmap := containsSub_map Char.toLower h
    have hfix : List.map Char.toLower ("australia".toList)
        = "australia".toList := by decide
    rw [hfix] at hmap
    have hus : containsSub ("us".toList) (lowerStr s) = true :=
      containsSub_trans (by decide) hmap
    exact map_region_eq_na s "us" (by decide) hus
  · intro h
    have hmap := containsSub_map Char.toLower h
    have hfix : List.map Char.toLower ("mexico city".toList)
        = "mexico city".toList := by decide
    rw [hfix] at hmap
    have hmx : containsSub ("mexico".toList) (lowerStr s) = true :=
      containsSub_trans (by decide) hmap
    exact map_region_eq_na s "mexico" (by decide) hmx

theorem c9_witness :
    map_region (some "sydney australia") = "NA"
      ∧ map_region (some "near mexico city") = "NA" :=
  ⟨(c9_region_shadowing "sydney australia").1 (by decide),
   (c9_region_shadowing "near mexico city").2 (by decide)⟩

/-- C10: the AI-theme detector answers true for every text whose
lower-cased form contains the two-letter sequence ai anywhere, and false
exactly when no keyword occurs as a substring; a missing input gives
false. -/
theorem c10_ai_substring :
    has_ai_keywords none = false
    ∧ (∀ s : String, containsSub ("ai".toList) (lowerStr s) = true →
        has_ai_keywords (some s) = true)
    ∧ ∀ s : String, has_ai_keywords (some s) = true ↔
        ∃ k ∈ aiKeywords, containsSub k.toList (lowerStr s) = true := by
  refine ⟨rfl, ?_, ?_⟩
  · intro s h
    exact List.any_eq_true.mpr ⟨"ai", by decide, h⟩
  · intro s
    simp [has_ai_keywords, List.any_eq_true]

theorem c10_witness : has_ai_keywords (some "Maintain props") = true :=
  c10_ai_substring.2.1 "Maintain props" (by decide)

/-- C2 (code bug): on an input whose every group is below the suppression
floor, bucket_and_aggregate yields the empty frame, and process then
aborts (pd.DataFrame([]) has no columns, so sort_values on date_utc
raises KeyError) instead of emitting the empty sorted output the spec
describes. -/
theorem c2_all_suppressed_crash :
    bucket_and_aggregate
        (List.map (derive pdEx polEx) (List.replicate 4 rawEx)) = []
    ∧ process pdEx polEx (List.replicate 4 rawEx) = none :=
  ⟨rfl, rfl⟩
